import Mathlib

/-!
Shallow embedding of `src/find_duplicates.py`.

The script scans a directory, groups regular files by byte size, and, for
every size shared by at least two files, groups the files of that size by
their `zlib.adler32` checksum of the full content; every checksum shared by
at least two files is printed as a duplicate group.  A trailing summary line
reports the accumulated duplicate count and `len(files)`.

The filesystem is modelled as a function from path strings to entries
(directory flag, byte content, readability).  `os.path.getsize` is the
length of the content; `open`+`read` succeeds exactly when the entry is
readable, and an unreadable file makes `fil_checksum` raise, which the
script never catches (modelled with `Except`).  Python dicts keep insertion
order, modelled with association lists; `dup_sizes`/`dup_checksums` are
Python sets of integers, modelled as duplicate-free lists in first-insertion
order (the set iteration order of CPython is implementation defined; every
property proved below is independent of that order).  Printing, the
progress output and the `verbose`/`quiet` flags have no effect on the
computed groups and are not modelled.
-/

namespace FindDuplicates

/-- One byte of file content, a value of `zlib`'s input. -/
abbrev Byte := Nat

/-- A filesystem entry: directory flag, byte content, and whether the file
can still be opened for reading at checksum time. -/
structure FSEntry where
  isDir : Bool
  content : List Byte
  readable : Bool

/-- The filesystem, mapping each path string to its entry. -/
abbrev FileSystem := String → FSEntry

/-- Model of os.path.getsize: the byte length of the file content. -/
def getsize (fs : FileSystem) (f : String) : Nat :=
  ((fs f).content).length

/-- The `zlib.adler32` checksum of a byte sequence: `s1` starts at 1 and
`s2` at 0; each byte updates `s1 := (s1 + b) % 65521` and
`s2 := (s2 + s1) % 65521`; the result is `s2 * 65536 + s1`. -/
def adler32 (content : List Byte) : Nat :=
  let st := content.foldl
    (fun p b =>
      let s1 := (p.1 + b) % 65521
      (s1, (p.2 + s1) % 65521))
    (1, 0)
  st.2 * 65536 + st.1

/-- The adler32 checksum of a file's full content. -/
def adlerOf (fs : FileSystem) (f : String) : Nat :=
  adler32 (fs f).content

/-- Source function fil_checksum (lines 20-23): open the file, read all bytes and
return `adler32` of them.  An unreadable file raises `OSError`, modelled as
`Except.error` carrying the offending path. -/
def fil_checksum (fs : FileSystem) (f : String) : Except String Nat :=
  if (fs f).readable then Except.ok (adlerOf fs f) else Except.error f

/-! ### Association lists for Python dicts of lists

`seen_sizes : dict[int, list[str]]` and `checksums : dict` are insertion
ordered; a missing key is created with a one-element list, an existing key
has the file appended to its list. -/

/-- Value of a key in the association list; `[]` when absent (the script
only ever reads keys it has inserted). -/
def alLookup (m : List (Nat × List String)) (k : Nat) : List String :=
  match m with
  | [] => []
  | (k0, vs) :: rest => if k0 = k then vs else alLookup rest k

/-- Python's `k in dict`. -/
def alMem (m : List (Nat × List String)) (k : Nat) : Bool :=
  match m with
  | [] => false
  | (k0, _) :: rest => k0 = k || alMem rest k

/-- Python dict[k].append(v) with creation of a missing key at the end of the
insertion order, exactly the two branches of the script. -/
def alAppend (m : List (Nat × List String)) (k : Nat) (v : String) :
    List (Nat × List String) :=
  match m with
  | [] => [(k, [v])]
  | (k0, vs) :: rest =>
    if k0 = k then (k0, vs ++ [v]) :: rest else (k0, vs) :: alAppend rest k v

/-- One insertion step of the script's grouping pattern: append `v` under
key `k` and, when the key already existed, add `k` to the duplicate-key set
(`dup_sizes.add` / `dup_checksums.add`). -/
def bump (st : List (Nat × List String) × List Nat) (k : Nat) (v : String) :
    List (Nat × List String) × List Nat :=
  (alAppend st.1 k v,
    if alMem st.1 k then (if k ∈ st.2 then st.2 else st.2 ++ [k]) else st.2)

/-! ### Size classification (source lines 119-141) -/

/-- One iteration of the size-classification loop: directories are skipped
(`os.path.isdir`), otherwise the file is appended to the class of its size
and the size is recorded in `dup_sizes` when the class already existed.
On the POSIX host `f.replace(os.sep, "/")` is the identity and the unused
`ef = quote(f)` binding has no effect, so neither is modelled. -/
def classifyStep (fs : FileSystem) (st : List (Nat × List String) × List Nat)
    (f : String) : List (Nat × List String) × List Nat :=
  if (fs f).isDir then st else bump st (getsize fs f) f

/-- The whole size-classification loop: `seen_sizes` and `dup_sizes` after
processing the enumerated `files` in order. -/
def classifyBySize (fs : FileSystem) (files : List String) :
    List (Nat × List String) × List Nat :=
  files.foldl (classifyStep fs) ([], [])

/-- The number of duplicate-size classes, `len(dup_sizes)`. -/
def dupCount (fs : FileSystem) (files : List String) : Nat :=
  (classifyBySize fs files).2.length

/-! ### Checksum stage (source lines 149-167) -/

/-- The inner checksum loop over one size class: each file's checksum is
computed (an unreadable file aborts everything, the script has no handler),
then grouped with `bump` into `checksums` / `dup_checksums`. -/
def checksumClass (fs : FileSystem) :
    List String → List (Nat × List String) × List Nat →
    Except String (List (Nat × List String) × List Nat)
  | [], st => Except.ok st
  | f :: rest, st =>
    match fil_checksum fs f with
    | Except.error e => Except.error e
    | Except.ok c => checksumClass fs rest (bump st c f)

/-- Process one duplicate-size class: run the checksum loop from empty
dictionaries and report, for every checksum in `dup_checksums`, the pair of
the checksum and its file list. -/
def processClass (fs : FileSystem) (cls : List String) :
    Except String (List (Nat × List String)) :=
  match checksumClass fs cls ([], []) with
  | Except.error e => Except.error e
  | Except.ok st => Except.ok (st.2.map (fun c => (c, alLookup st.1 c)))

/-- The outer loop over `dup_sizes`: classes are processed in order and an
uncaught read error aborts the remainder of the run. -/
def processSizes (fs : FileSystem) (seen : List (Nat × List String)) :
    List Nat → Except String (List (Nat × List (Nat × List String)))
  | [] => Except.ok []
  | s :: rest =>
    match processClass fs (alLookup seen s) with
    | Except.error e => Except.error e
    | Except.ok gs =>
      match processSizes fs seen rest with
      | Except.error e => Except.error e
      | Except.ok ps => Except.ok ((s, gs) :: ps)

/-- Counter total_dup: starting from 0, for every duplicate-size class and every
duplicate checksum in it, add the length of the file list (source line
164). -/
def totalDupAcc (ps : List (Nat × List (Nat × List String))) : Nat :=
  ps.foldl (fun acc p => p.2.foldl (fun a g => a + g.2.length) acc) 0

/-- Result of a run of `main` after the file list has been built:
the user cancelled at the large-output prompt (`exit()`, status 0), an
uncaught read error aborted the run (traceback, status 1), or the report
was printed: the per-size duplicate groups, `total_dup`, and the `len(files)`
of the summary line. -/
inductive Outcome where
  | cancelled : Outcome
  | readError : String → Outcome
  | report : List (Nat × List (Nat × List String)) → Nat → Nat → Outcome
deriving DecidableEq

/-- The stages after the warning checkpoint. -/
def finishRun (fs : FileSystem) (files : List String)
    (st : List (Nat × List String) × List Nat) : Outcome :=
  match processSizes fs st.1 st.2 with
  | Except.error e => Outcome.readError e
  | Except.ok ps => Outcome.report ps (totalDupAcc ps) files.length

/-- The pipeline of `main` from the enumerated file list on (source lines
119-171): size classification, the large-output confirmation checkpoint
(`if len(dup_sizes) > 200 and warn: if input("Continue? ") == 'n': exit()`),
then the checksum stage and the report.  `response` is what `input()` would
return; it is consulted only when the prompt fires. -/
def run (fs : FileSystem) (files : List String) (warn : Bool)
    (response : String) : Outcome :=
  if 200 < (classifyBySize fs files).2.length ∧ warn = true then
    if response = "n" then Outcome.cancelled
    else finishRun fs files (classifyBySize fs files)
  else finishRun fs files (classifyBySize fs files)

/-- The process exit status of each outcome: `exit()` and a normal return
of `main` give 0, an uncaught exception makes the interpreter exit with 1. -/
def exitStatus : Outcome → Nat
  | Outcome.cancelled => 0
  | Outcome.readError _ => 1
  | Outcome.report _ _ _ => 0

/-- The duplicate groups of a report, as lists of member paths, in print
order. -/
def reportGroups (ps : List (Nat × List (Nat × List String))) :
    List (List String) :=
  (ps.map (fun p => p.2.map Prod.snd)).flatten

/-- The printed duplicate groups of an outcome. -/
def groupsOf : Outcome → List (List String)
  | Outcome.cancelled => []
  | Outcome.readError _ => []
  | Outcome.report ps _ _ => reportGroups ps

/-- Two paths are reported in one duplicate group. -/
def SameGroup (o : Outcome) (a b : String) : Prop :=
  ∃ g ∈ groupsOf o, a ∈ g ∧ b ∈ g

instance (o : Outcome) (a b : String) : Decidable (SameGroup o a b) := by
  unfold SameGroup; infer_instance

/-- The Bool predicate selecting the members of the size class `s`: regular
file (not a directory) whose `getsize` is `s`. -/
def sizePred (fs : FileSystem) (s : Nat) (f : String) : Bool :=
  !(fs f).isDir && decide (getsize fs f = s)

/-- The Bool predicate selecting the files with adler32 checksum `c`. -/
def adlerPred (fs : FileSystem) (c : Nat) (f : String) : Bool :=
  decide (adlerOf fs f = c)

/-! ### Association-list lemmas -/

theorem alLookup_of_alMem_eq_false {m : List (Nat × List String)} {k : Nat}
    (h : alMem m k = false) : alLookup m k = [] := by
  induction m with
  | nil => rfl
  | cons p rest ih =>
    obtain ⟨k0, vs⟩ := p
    simp only [alMem, Bool.or_eq_false_iff, decide_eq_false_iff_not] at h
    simp only [alLookup, if_neg h.1]
    exact ih h.2

theorem alLookup_alAppend (m : List (Nat × List String)) (k k1 : Nat)
    (v : String) :
    alLookup (alAppend m k v) k1 =
      alLookup m k1 ++ (if k = k1 then [v] else []) := by
  induction m with
  | nil =>
    by_cases h : k = k1 <;> simp [alAppend, alLookup, h]
  | cons p rest ih =>
    obtain ⟨k0, vs⟩ := p
    by_cases h0 : k0 = k
    · subst h0
      by_cases h1 : k0 = k1
      · subst h1
        simp [alAppend, alLookup]
      · simp [alAppend, alLookup, h1]
    · by_cases h1 : k0 = k1
      · subst h1
        have hk : ¬ k = k0 := fun h => h0 h.symm
        simp [alAppend, alLookup, h0, hk]
      · simp [alAppend, alLookup, h0, h1, ih]

theorem alMem_alAppend (m : List (Nat × List String)) (k k1 : Nat)
    (v : String) :
    alMem (alAppend m k v) k1 = (alMem m k1 || decide (k = k1)) := by
  induction m with
  | nil => simp [alAppend, alMem]
  | cons p rest ih =>
    obtain ⟨k0, vs⟩ := p
    by_cases h0 : k0 = k
    · subst h0
      by_cases h1 : k0 = k1
      · subst h1; simp [alAppend, alMem]
      · simp [alAppend, alMem, h1, ih]
    · simp [alAppend, alMem, h0, ih, Bool.or_assoc]

/-! ### The grouping invariant

`StateInv` relates a dictionary-of-lists plus duplicate-key set as the
script maintains them: a present key has a nonempty list, and the duplicate
set holds exactly the keys whose list has reached two elements, without
repetition. -/

def StateInv (st : List (Nat × List String) × List Nat) : Prop :=
  (∀ k, alMem st.1 k = true → alLookup st.1 k ≠ []) ∧
  (∀ k, k ∈ st.2 ↔ 2 ≤ (alLookup st.1 k).length) ∧
  st.2.Nodup

theorem StateInv_nil : StateInv ([], []) := by
  refine ⟨?_, ?_, List.nodup_nil⟩
  · intro k h; simp [alMem] at h
  · intro k; simp [alLookup]

theorem bump_fst_lookup (st : List (Nat × List String) × List Nat)
    (k k1 : Nat) (v : String) :
    alLookup (bump st k v).1 k1 =
      alLookup st.1 k1 ++ (if k = k1 then [v] else []) :=
  alLookup_alAppend st.1 k k1 v

theorem alMem_of_alLookup_ne_nil {m : List (Nat × List String)} {k : Nat}
    (h : alLookup m k ≠ []) : alMem m k = true := by
  cases hm : alMem m k with
  | true => rfl
  | false => exact absurd (alLookup_of_alMem_eq_false hm) h

theorem bump_snd_mem (st : List (Nat × List String) × List Nat) (k k1 : Nat)
    (v : String) :
    k1 ∈ (bump st k v).2 ↔
      (k1 ∈ st.2 ∨ (k1 = k ∧ alMem st.1 k = true)) := by
  show k1 ∈ (if alMem st.1 k then (if k ∈ st.2 then st.2 else st.2 ++ [k])
    else st.2) ↔ _
  by_cases hm : alMem st.1 k = true
  · rw [if_pos hm]
    by_cases hin : k ∈ st.2
    · rw [if_pos hin]
      constructor
      · exact fun h => Or.inl h
      · rintro (h | ⟨rfl, -⟩)
        · exact h
        · exact hin
    · rw [if_neg hin, List.mem_append, List.mem_singleton]
      constructor
      · rintro (h | h)
        · exact Or.inl h
        · exact Or.inr ⟨h, hm⟩
      · rintro (h | ⟨h, -⟩)
        · exact Or.inl h
        · exact Or.inr h
  · rw [if_neg hm]
    rw [Bool.not_eq_true] at hm
    simp [hm]

theorem bump_snd_nodup (st : List (Nat × List String) × List Nat) (k : Nat)
    (v : String) (h : st.2.Nodup) : (bump st k v).2.Nodup := by
  show (if alMem st.1 k then (if k ∈ st.2 then st.2 else st.2 ++ [k])
    else st.2).Nodup
  by_cases hm : alMem st.1 k = true
  · by_cases hin : k ∈ st.2
    · simp [hm, hin, h]
    · simp [hm, hin, h, List.nodup_append, List.disjoint_singleton]
  · rw [Bool.not_eq_true] at hm
    simp [hm, h]

theorem bump_inv (st : List (Nat × List String) × List Nat) (k : Nat)
    (v : String) (h : StateInv st) : StateInv (bump st k v) := by
  obtain ⟨h1, h2, h3⟩ := h
  refine ⟨?_, ?_, bump_snd_nodup st k v h3⟩
  · intro k1 hm
    rw [bump_fst_lookup]
    by_cases hk : k = k1
    · simp [hk]
    · rw [if_neg hk, List.append_nil]
      rw [show (bump st k v).1 = alAppend st.1 k v from rfl,
        alMem_alAppend] at hm
      simp only [hk, decide_eq_true_eq, decide_False, Bool.or_false] at hm
      exact h1 k1 hm
  · intro k1
    rw [bump_snd_mem, bump_fst_lookup]
    by_cases hk : k = k1
    · subst hk
      rw [if_pos rfl]
      simp only [List.length_append, List.length_singleton, and_true]
      constructor
      · rintro (h | ⟨-, hmem⟩)
        · have := (h2 k).mp h
          omega
        · have hne := h1 k hmem
          have hp : 0 < (alLookup st.1 k).length := List.length_pos.mpr hne
          omega
      · intro hlen
        by_cases hm : alMem st.1 k = true
        · exact Or.inr ⟨by trivial, by simp [hm]⟩
        · rw [Bool.not_eq_true] at hm
          rw [alLookup_of_alMem_eq_false hm] at hlen
          simp at hlen
    · have hk1 : ¬ k1 = k := fun h => hk h.symm
      rw [if_neg hk, List.append_nil]
      simp only [hk1, false_and, or_false]
      exact h2 k1

/-! ### Characterization of the size classification -/

theorem foldl_classifyStep_lookup (fs : FileSystem) (files : List String)
    (st : List (Nat × List String) × List Nat) (s : Nat) :
    alLookup (files.foldl (classifyStep fs) st).1 s =
      alLookup st.1 s ++ files.filter (sizePred fs s) := by
  induction files generalizing st with
  | nil => simp
  | cons f rest ih =>
    rw [List.foldl_cons, List.filter_cons]
    by_cases hd : (fs f).isDir = true
    · rw [show classifyStep fs st f = st by
        unfold classifyStep; rw [if_pos hd]]
      rw [show sizePred fs s f = false by simp [sizePred, hd]]
      rw [ih st]
      simp
    · rw [show classifyStep fs st f = bump st (getsize fs f) f by
        unfold classifyStep; rw [if_neg hd]]
      rw [ih (bump st (getsize fs f) f), bump_fst_lookup,
        List.append_assoc]
      rw [Bool.not_eq_true] at hd
      by_cases hs : getsize fs f = s
      · rw [if_pos hs, show sizePred fs s f = true by simp [sizePred, hd, hs]]
        simp
      · rw [if_neg hs, show sizePred fs s f = false by simp [sizePred, hs]]
        simp

theorem foldl_classifyStep_inv (fs : FileSystem) (files : List String)
    (st : List (Nat × List String) × List Nat) (h : StateInv st) :
    StateInv (files.foldl (classifyStep fs) st) := by
  induction files generalizing st with
  | nil => exact h
  | cons f rest ih =>
    rw [List.foldl_cons]
    by_cases hd : (fs f).isDir = true
    · rw [show classifyStep fs st f = st by
        unfold classifyStep; rw [if_pos hd]]
      exact ih st h
    · rw [show classifyStep fs st f = bump st (getsize fs f) f by
        unfold classifyStep; rw [if_neg hd]]
      exact ih _ (bump_inv st (getsize fs f) f h)

/-- The size class of `s` after classification is exactly the enumerated
non-directory files of size `s`, in enumeration order. -/
theorem classify_lookup (fs : FileSystem) (files : List String) (s : Nat) :
    alLookup (classifyBySize fs files).1 s = files.filter (sizePred fs s) := by
  unfold classifyBySize
  rw [foldl_classifyStep_lookup]
  simp [alLookup]

theorem classify_inv (fs : FileSystem) (files : List String) :
    StateInv (classifyBySize fs files) :=
  foldl_classifyStep_inv fs files ([], []) StateInv_nil

/-- The set dup_sizes holds exactly the sizes shared by at least two enumerated
non-directory files. -/
theorem classify_dup_iff (fs : FileSystem) (files : List String) (s : Nat) :
    s ∈ (classifyBySize fs files).2 ↔
      2 ≤ (files.filter (sizePred fs s)).length := by
  have h := (classify_inv fs files).2.1 s
  rwa [classify_lookup] at h

theorem classify_nodup (fs : FileSystem) (files : List String) :
    (classifyBySize fs files).2.Nodup :=
  (classify_inv fs files).2.2

/-! ### Characterization of the checksum stage -/

theorem checksumClass_ok (fs : FileSystem) (cls : List String)
    (st st1 : List (Nat × List String) × List Nat)
    (h : checksumClass fs cls st = Except.ok st1) :
    (∀ c, alLookup st1.1 c = alLookup st.1 c ++ cls.filter (adlerPred fs c)) ∧
    (StateInv st → StateInv st1) := by
  induction cls generalizing st with
  | nil =>
    unfold checksumClass at h
    injection h with h
    subst h
    exact ⟨fun c => by simp, fun hs => hs⟩
  | cons f rest ih =>
    unfold checksumClass at h
    by_cases hr : (fs f).readable = true
    · rw [show fil_checksum fs f = Except.ok (adlerOf fs f) by
        unfold fil_checksum; rw [if_pos hr]] at h
      obtain ⟨hl, hi⟩ := ih (bump st (adlerOf fs f) f) h
      refine ⟨?_, fun hs => hi (bump_inv st (adlerOf fs f) f hs)⟩
      intro c
      rw [hl c, bump_fst_lookup, List.append_assoc, List.filter_cons]
      by_cases hc : adlerOf fs f = c
      · rw [if_pos hc, show adlerPred fs c f = true by simp [adlerPred, hc]]
        simp
      · rw [if_neg hc, show adlerPred fs c f = false by simp [adlerPred, hc]]
        simp
    · rw [show fil_checksum fs f = Except.error f by
        unfold fil_checksum; rw [if_neg hr]] at h
      exact Except.noConfusion h

theorem processClass_ok (fs : FileSystem) (cls : List String)
    (gs : List (Nat × List String)) (h : processClass fs cls = Except.ok gs) :
    (∀ g ∈ gs, g.2 = cls.filter (adlerPred fs g.1) ∧ 2 ≤ g.2.length) ∧
    (gs.map Prod.fst).Nodup ∧
    (∀ c, 2 ≤ (cls.filter (adlerPred fs c)).length →
      (c, cls.filter (adlerPred fs c)) ∈ gs) := by
  unfold processClass at h
  cases hcc : checksumClass fs cls ([], []) with
  | error e => rw [hcc] at h; exact Except.noConfusion h
  | ok st1 =>
    rw [hcc] at h
    injection h with h
    subst h
    obtain ⟨hl, hinv⟩ := checksumClass_ok fs cls ([], []) st1 hcc
    obtain ⟨i1, i2, i3⟩ := hinv StateInv_nil
    have hlc : ∀ c, alLookup st1.1 c = cls.filter (adlerPred fs c) := by
      intro c
      rw [hl c]
      simp [alLookup]
    refine ⟨?_, ?_, ?_⟩
    · intro g hg
      rw [List.mem_map] at hg
      obtain ⟨c, hc, rfl⟩ := hg
      exact ⟨hlc c, (i2 c).mp hc⟩
    · simpa [List.map_map, Function.comp_def] using i3
    · intro c h2le
      rw [← hlc c] at h2le
      have hcmem : c ∈ st1.2 := (i2 c).mpr h2le
      rw [List.mem_map]
      exact ⟨c, hcmem, by rw [hlc c]⟩

/-! ### Characterization of the outer loop and of `run` -/

theorem processSizes_ok_facts (fs : FileSystem)
    (seen : List (Nat × List String)) (l : List Nat)
    (ps : List (Nat × List (Nat × List String)))
    (h : processSizes fs seen l = Except.ok ps) :
    ps.map Prod.fst = l ∧
    ∀ p ∈ ps, processClass fs (alLookup seen p.1) = Except.ok p.2 := by
  induction l generalizing ps with
  | nil =>
    unfold processSizes at h
    injection h with h
    subst h
    simp
  | cons s rest ih =>
    unfold processSizes at h
    cases hpc : processClass fs (alLookup seen s) with
    | error e => rw [hpc] at h; exact Except.noConfusion h
    | ok gs =>
      rw [hpc] at h
      cases hps : processSizes fs seen rest with
      | error e => rw [hps] at h; exact Except.noConfusion h
      | ok ps0 =>
        rw [hps] at h
        injection h with h
        subst h
        obtain ⟨hf, hm⟩ := ih ps0 hps
        refine ⟨by simp [hf], ?_⟩
        intro p hp
        rcases List.mem_cons.mp hp with rfl | hp0
        · exact hpc
        · exact hm p hp0

theorem run_report_inv (fs : FileSystem) (files : List String) (warn : Bool)
    (resp : String) (ps : List (Nat × List (Nat × List String))) (td tf : Nat)
    (h : run fs files warn resp = Outcome.report ps td tf) :
    processSizes fs (classifyBySize fs files).1 (classifyBySize fs files).2 =
      Except.ok ps ∧
    td = totalDupAcc ps ∧ tf = files.length := by
  have hf : finishRun fs files (classifyBySize fs files) =
      Outcome.report ps td tf := by
    unfold run at h
    by_cases h1 : 200 < (classifyBySize fs files).2.length ∧ warn = true
    · rw [if_pos h1] at h
      by_cases h2 : resp = "n"
      · rw [if_pos h2] at h
        exact Outcome.noConfusion h
      · rwa [if_neg h2] at h
    · rwa [if_neg h1] at h
  unfold finishRun at hf
  cases hps : processSizes fs (classifyBySize fs files).1
      (classifyBySize fs files).2 with
  | error e => rw [hps] at hf; exact Outcome.noConfusion hf
  | ok ps0 =>
    rw [hps] at hf
    injection hf with e1 e2 e3
    subst e1
    exact ⟨rfl, e2.symm, e3.symm⟩

/-! ### Group membership helpers -/

theorem two_le_length_of_mem {α : Type} {l : List α} {a b : α} (ha : a ∈ l)
    (hb : b ∈ l) (hab : a ≠ b) : 2 ≤ l.length := by
  cases l with
  | nil => cases ha
  | cons x rest =>
    cases rest with
    | nil =>
      rw [List.mem_singleton] at ha hb
      exact absurd (ha.trans hb.symm) hab
    | cons y t =>
      simp only [List.length_cons]
      omega

theorem mem_sizeFilter {fs : FileSystem} {s : Nat} {x : String}
    {files : List String} (hx : x ∈ files.filter (sizePred fs s)) :
    x ∈ files ∧ (fs x).isDir = false ∧ getsize fs x = s := by
  rw [List.mem_filter] at hx
  obtain ⟨h1, h2⟩ := hx
  unfold sizePred at h2
  simp only [Bool.and_eq_true, Bool.not_eq_true', decide_eq_true_eq] at h2
  exact ⟨h1, h2.1, h2.2⟩

theorem mem_adlerFilter {fs : FileSystem} {c : Nat} {x : String}
    {l : List String} (hx : x ∈ l.filter (adlerPred fs c)) :
    x ∈ l ∧ adlerOf fs x = c := by
  rw [List.mem_filter] at hx
  obtain ⟨h1, h2⟩ := hx
  unfold adlerPred at h2
  simp only [decide_eq_true_eq] at h2
  exact ⟨h1, h2⟩

theorem mem_groupsOf_report {ps : List (Nat × List (Nat × List String))}
    {td tf : Nat} {g : List String} :
    g ∈ groupsOf (Outcome.report ps td tf) ↔
      ∃ p ∈ ps, ∃ grp ∈ p.2, grp.2 = g := by
  show g ∈ reportGroups ps ↔ _
  unfold reportGroups
  rw [List.mem_flatten]
  constructor
  · rintro ⟨l, hl, hg⟩
    rw [List.mem_map] at hl
    obtain ⟨p, hp, rfl⟩ := hl
    rw [List.mem_map] at hg
    obtain ⟨grp, hgrp, rfl⟩ := hg
    exact ⟨p, hp, grp, hgrp, rfl⟩
  · rintro ⟨p, hp, grp, hgrp, rfl⟩
    exact ⟨p.2.map Prod.snd, List.mem_map.mpr ⟨p, hp, rfl⟩,
      List.mem_map.mpr ⟨grp, hgrp, rfl⟩⟩

/-- Every group of a successful run is the adler32-refinement of a size
class: the enumerated non-directory files of the group's size, filtered to
the group's checksum, and it has at least two members. -/
theorem report_group_eq (fs : FileSystem) (files : List String) (warn : Bool)
    (resp : String) (ps : List (Nat × List (Nat × List String))) (td tf : Nat)
    (h : run fs files warn resp = Outcome.report ps td tf)
    (p : Nat × List (Nat × List String)) (hp : p ∈ ps)
    (grp : Nat × List String) (hgrp : grp ∈ p.2) :
    grp.2 = (files.filter (sizePred fs p.1)).filter (adlerPred fs grp.1) ∧
    2 ≤ grp.2.length := by
  obtain ⟨hps, -, -⟩ := run_report_inv fs files warn resp ps td tf h
  obtain ⟨-, hm⟩ := processSizes_ok_facts _ _ _ _ hps
  obtain ⟨hg, -, -⟩ := processClass_ok _ _ _ (hm p hp)
  have hfacts := hg grp hgrp
  rwa [classify_lookup] at hfacts

/-- Every member of a reported group is an enumerated non-directory file
whose size is the group's size key and whose checksum is the group's
checksum key. -/
theorem report_group_member (fs : FileSystem) (files : List String)
    (warn : Bool) (resp : String)
    (ps : List (Nat × List (Nat × List String))) (td tf : Nat)
    (h : run fs files warn resp = Outcome.report ps td tf)
    (p : Nat × List (Nat × List String)) (hp : p ∈ ps)
    (grp : Nat × List String) (hgrp : grp ∈ p.2) (x : String)
    (hx : x ∈ grp.2) :
    x ∈ files ∧ (fs x).isDir = false ∧ getsize fs x = p.1 ∧
      adlerOf fs x = grp.1 := by
  obtain ⟨he, -⟩ := report_group_eq fs files warn resp ps td tf h p hp grp hgrp
  rw [he] at hx
  obtain ⟨hx1, hc⟩ := mem_adlerFilter hx
  obtain ⟨hxf, hnd, hsz⟩ := mem_sizeFilter hx1
  exact ⟨hxf, hnd, hsz, hc⟩

/-- Two files of one reported group agree in size and in checksum. -/
theorem sameGroup_size_adler (fs : FileSystem) (files : List String)
    (warn : Bool) (resp : String)
    (ps : List (Nat × List (Nat × List String))) (td tf : Nat)
    (h : run fs files warn resp = Outcome.report ps td tf) (a b : String)
    (hsg : SameGroup (Outcome.report ps td tf) a b) :
    getsize fs a = getsize fs b ∧ adlerOf fs a = adlerOf fs b := by
  obtain ⟨g, hg, ha, hb⟩ := hsg
  rw [mem_groupsOf_report] at hg
  obtain ⟨p, hp, grp, hgrp, rfl⟩ := hg
  obtain ⟨-, -, hsa, hca⟩ :=
    report_group_member fs files warn resp ps td tf h p hp grp hgrp a ha
  obtain ⟨-, -, hsb, hcb⟩ :=
    report_group_member fs files warn resp ps td tf h p hp grp hgrp b hb
  exact ⟨hsa.trans hsb.symm, hca.trans hcb.symm⟩

/-- Two distinct enumerated non-directory files of equal size and equal
checksum land in one reported group. -/
theorem sameGroup_of_size_adler (fs : FileSystem) (files : List String)
    (warn : Bool) (resp : String)
    (ps : List (Nat × List (Nat × List String))) (td tf : Nat)
    (h : run fs files warn resp = Outcome.report ps td tf) (a b : String)
    (ha : a ∈ files) (hb : b ∈ files) (hda : (fs a).isDir = false)
    (hdb : (fs b).isDir = false) (hab : a ≠ b)
    (hsz : getsize fs a = getsize fs b) (hck : adlerOf fs a = adlerOf fs b) :
    SameGroup (Outcome.report ps td tf) a b := by
  obtain ⟨hps, -, -⟩ := run_report_inv fs files warn resp ps td tf h
  obtain ⟨hfst, hm⟩ := processSizes_ok_facts _ _ _ _ hps
  have haf : a ∈ files.filter (sizePred fs (getsize fs a)) :=
    List.mem_filter.mpr ⟨ha, by simp [sizePred, hda]⟩
  have hbf : b ∈ files.filter (sizePred fs (getsize fs a)) :=
    List.mem_filter.mpr ⟨hb, by simp [sizePred, hdb, hsz.symm]⟩
  have h2 : 2 ≤ (files.filter (sizePred fs (getsize fs a))).length :=
    two_le_length_of_mem haf hbf hab
  have hsdup : getsize fs a ∈ (classifyBySize fs files).2 :=
    (classify_dup_iff fs files (getsize fs a)).mpr h2
  rw [← hfst, List.mem_map] at hsdup
  obtain ⟨p, hp, hp1⟩ := hsdup
  obtain ⟨-, -, hfwd⟩ := processClass_ok _ _ _ (hm p hp)
  have hcls : alLookup (classifyBySize fs files).1 p.1 =
      files.filter (sizePred fs (getsize fs a)) := by
    rw [classify_lookup, hp1]
  have haf2 : a ∈ (alLookup (classifyBySize fs files).1 p.1).filter
      (adlerPred fs (adlerOf fs a)) := by
    rw [hcls]
    exact List.mem_filter.mpr ⟨haf, by simp [adlerPred]⟩
  have hbf2 : b ∈ (alLookup (classifyBySize fs files).1 p.1).filter
      (adlerPred fs (adlerOf fs a)) := by
    rw [hcls]
    exact List.mem_filter.mpr ⟨hbf, by simp [adlerPred, hck.symm]⟩
  have h2c : 2 ≤ ((alLookup (classifyBySize fs files).1 p.1).filter
      (adlerPred fs (adlerOf fs a))).length :=
    two_le_length_of_mem haf2 hbf2 hab
  have hgrp := hfwd (adlerOf fs a) h2c
  refine ⟨(alLookup (classifyBySize fs files).1 p.1).filter
      (adlerPred fs (adlerOf fs a)), ?_, haf2, hbf2⟩
  exact mem_groupsOf_report.mpr ⟨p, hp, _, hgrp, rfl⟩

/-- No file occurs in two different reported groups: within a size class
the checksum keys are distinct and select disjoint file sets, and across
size classes the sizes are distinct. -/
theorem report_groups_pairwise (fs : FileSystem) (files : List String)
    (warn : Bool) (resp : String)
    (ps : List (Nat × List (Nat × List String))) (td tf : Nat)
    (h : run fs files warn resp = Outcome.report ps td tf) :
    (groupsOf (Outcome.report ps td tf)).Pairwise
      (fun g1 g2 => ∀ x, x ∈ g1 → x ∉ g2) := by
  obtain ⟨hps, -, -⟩ := run_report_inv fs files warn resp ps td tf h
  obtain ⟨hfst, hm⟩ := processSizes_ok_facts _ _ _ _ hps
  show (reportGroups ps).Pairwise _
  unfold reportGroups
  rw [List.pairwise_flatten]
  constructor
  · intro l hl
    rw [List.mem_map] at hl
    obtain ⟨p, hp, rfl⟩ := hl
    rw [List.pairwise_map]
    obtain ⟨hgg, hnd, -⟩ := processClass_ok _ _ _ (hm p hp)
    have hnd2 : p.2.Pairwise (fun g1 g2 => g1.1 ≠ g2.1) :=
      List.pairwise_map.mp hnd
    refine hnd2.imp_of_mem ?_
    intro grp1 grp2 h1m h2m hne x hx1 hx2
    rw [(hgg grp1 h1m).1] at hx1
    rw [(hgg grp2 h2m).1] at hx2
    exact hne ((mem_adlerFilter hx1).2.symm.trans (mem_adlerFilter hx2).2)
  · rw [List.pairwise_map]
    have hnodup : (ps.map Prod.fst).Nodup := by
      rw [hfst]
      exact classify_nodup fs files
    have hpair : ps.Pairwise (fun p q => p.1 ≠ q.1) :=
      List.pairwise_map.mp hnodup
    refine hpair.imp_of_mem ?_
    intro p q hpm hqm hne gl hgl yl hyl z hz hzy
    rw [List.mem_map] at hgl hyl
    obtain ⟨grp, hgrp, rfl⟩ := hgl
    obtain ⟨grq, hgrq, rfl⟩ := hyl
    obtain ⟨-, -, hszp, -⟩ := report_group_member fs files warn resp ps td tf
      h p hpm grp hgrp z hz
    obtain ⟨-, -, hszq, -⟩ := report_group_member fs files warn resp ps td tf
      h q hqm grq hgrq z hzy
    exact hne (hszp.symm.trans hszq)

theorem report_groups_two_le (fs : FileSystem) (files : List String)
    (warn : Bool) (resp : String)
    (ps : List (Nat × List (Nat × List String))) (td tf : Nat)
    (h : run fs files warn resp = Outcome.report ps td tf) :
    ∀ g ∈ groupsOf (Outcome.report ps td tf), 2 ≤ g.length := by
  intro g hg
  rw [mem_groupsOf_report] at hg
  obtain ⟨p, hp, grp, hgrp, rfl⟩ := hg
  exact (report_group_eq fs files warn resp ps td tf h p hp grp hgrp).2

/-! ### The duplicate counter -/

theorem foldl_add_map {α : Type} (l : List α) (f : α → Nat) (n : Nat) :
    l.foldl (fun a x => a + f x) n = n + (l.map f).sum := by
  induction l generalizing n with
  | nil => simp
  | cons x rest ih =>
    rw [List.foldl_cons, ih, List.map_cons, List.sum_cons]
    omega

theorem totalDupAcc_general (ps : List (Nat × List (Nat × List String)))
    (n : Nat) :
    ps.foldl (fun acc p => p.2.foldl (fun a g => a + g.2.length) acc) n =
      n + ((reportGroups ps).map List.length).sum := by
  induction ps generalizing n with
  | nil => simp [reportGroups]
  | cons p rest ih =>
    rw [List.foldl_cons, ih, foldl_add_map p.2 (fun g => g.2.length) n]
    unfold reportGroups
    rw [List.map_cons, List.flatten_cons, List.map_append, List.sum_append,
      List.map_map]
    have halign : (p.2.map (List.length ∘ Prod.snd)).sum =
        (p.2.map (fun g => g.2.length)).sum := by
      simp [Function.comp_def]
    omega

/-- Counter total_dup is the sum over the printed groups of their number of
files. -/
theorem totalDupAcc_eq (ps : List (Nat × List (Nat × List String))) :
    totalDupAcc ps = ((reportGroups ps).map List.length).sum := by
  unfold totalDupAcc
  rw [totalDupAcc_general]
  omega

/-! ### The confirmation checkpoint -/

theorem finishRun_ne_cancelled (fs : FileSystem) (files : List String)
    (st : List (Nat × List String) × List Nat) :
    finishRun fs files st ≠ Outcome.cancelled := by
  unfold finishRun
  cases processSizes fs st.1 st.2 <;> simp

/-- The run is cancelled exactly when the duplicate-size class count
exceeds 200, warnings are enabled, and the prompt response is exactly
"n". -/
theorem run_cancelled_iff (fs : FileSystem) (files : List String)
    (warn : Bool) (resp : String) :
    run fs files warn resp = Outcome.cancelled ↔
      (200 < dupCount fs files ∧ warn = true ∧ resp = "n") := by
  unfold run dupCount
  by_cases h1 : 200 < (classifyBySize fs files).2.length ∧ warn = true
  · rw [if_pos h1]
    by_cases h2 : resp = "n"
    · rw [if_pos h2]
      simp [h1.1, h1.2, h2]
    · rw [if_neg h2]
      simp [h2, finishRun_ne_cancelled]
  · rw [if_neg h1]
    constructor
    · intro hc
      exact absurd hc (finishRun_ne_cancelled fs files _)
    · rintro ⟨ha, hb, -⟩
      exact absurd ⟨ha, hb⟩ h1

/-- Making every file unreadable: directory flags and contents are kept,
only the readability at checksum time is dropped. -/
def allUnreadable (fs : FileSystem) : FileSystem :=
  fun f => ⟨(fs f).isDir, (fs f).content, false⟩

theorem classify_allUnreadable (fs : FileSystem) (files : List String) :
    classifyBySize (allUnreadable fs) files = classifyBySize fs files := rfl

/-! ### Concrete filesystems used as witnesses and counterexamples -/

/-- Two regular files of size 3 with different bytes but equal adler32
checksum: `adler32 [0,2,0] = adler32 [1,0,1] = 7 * 65536 + 3`. -/
def fsC1 : FileSystem := fun f =>
  if f = "a" then ⟨false, [0, 2, 0], true⟩
  else if f = "b" then ⟨false, [1, 0, 1], true⟩
  else ⟨false, [], true⟩

/-- Two regular files of equal size 1, the first unreadable at checksum
time. -/
def fsC2 : FileSystem := fun f =>
  if f = "u" then ⟨false, [7], false⟩ else ⟨false, [9], true⟩

/-- A single directory entry. -/
def fsC4 : FileSystem := fun f =>
  if f = "d" then ⟨true, [], true⟩ else ⟨false, [], true⟩

/-- Every path is a readable zero-byte regular file. -/
def fsC7 : FileSystem := fun _ => ⟨false, [], true⟩

/-- A filesystem of regular readable files: two distinct names of each length
0..200, so there are 201 duplicate-size classes. -/
def fsBig : FileSystem := fun s => ⟨false, List.replicate s.length 0, true⟩

/-- Two names of each length 0..200 (the two names of length 0 coincide;
the enumeration still puts two entries of size 0 in the class). -/
def bigFiles : List String :=
  (List.range 201).flatMap
    (fun i => [String.mk (List.replicate i 'a'),
      String.mk (List.replicate i 'b')])

/-! ### Argument validation (source lines 85-100)

`main` stores `quote(arg)` (`shlex.quote`) as the target directory and then
runs `os.path.exists` / `os.path.isdir` on that quoted string.  `quote`
returns the argument unchanged when it consists only of the safe characters
(ASCII letters, digits, underscore, at sign, percent, plus, equals, colon,
comma, dot, slash, hyphen) and otherwise wraps it in single quotes, with each
embedded single quote replaced by the five characters
single-quote double-quote single-quote double-quote single-quote. -/

/-- The single-quote character. -/
def squote : Char := Char.ofNat 39

/-- The double-quote character. -/
def dquote : Char := Char.ofNat 34

/-- The characters `shlex.quote` treats as safe: ASCII alphanumerics and
underscore, at sign, percent, plus, equals, colon, comma, dot, slash,
hyphen. -/
def shlexSafeChar (c : Char) : Bool :=
  c.isAlphanum || c = '_' || c = '@' || c = '%' || c = '+' || c = '=' ||
    c = ':' || c = ',' || c = '.' || c = '/' || c = '-'

/-- Character-level model of the replace call in quote (the pattern is the
single character `squote`, replaced by five characters). -/
def quoteEscape : List Char → List Char
  | [] => []
  | c :: rest =>
    if c = squote then
      squote :: dquote :: squote :: dquote :: squote :: quoteEscape rest
    else c :: quoteEscape rest

/-- Model of shlex.quote. -/
def shlexQuote (s : String) : String :=
  if s = "" then String.mk [squote, squote]
  else if s.toList.all shlexSafeChar then s
  else String.mk (squote :: (quoteEscape s.toList ++ [squote]))

/-- The fatal input errors of the target-directory checks. -/
inductive TargetError where
  | noSuchDirectory : TargetError
  | notADirectory : TargetError
deriving DecidableEq

/-- Result of validating the positional argument: a fatal one-line
diagnostic with the exit code passed to `exit`, or the accepted (quoted)
target directory. -/
inductive TargetResult where
  | fatal : TargetError → Nat → TargetResult
  | accepted : String → TargetResult
deriving DecidableEq

/-- Lines 86 and 93-100 of `main`: the target directory is the
`shlex.quote` of the argument, and the existence and is-a-directory checks
are run on that quoted string; each failure prints its diagnostic and calls
`exit(1)`. -/
def checkTargetDirectory (pathExists isDirectory : String → Bool)
    (arg : String) : TargetResult :=
  if pathExists (shlexQuote arg) = false then
    TargetResult.fatal TargetError.noSuchDirectory 1
  else if isDirectory (shlexQuote arg) = false then
    TargetResult.fatal TargetError.notADirectory 1
  else TargetResult.accepted (shlexQuote arg)

/-- A directory name containing a space. -/
def spacedName : String := String.mk ['a', ' ', 'b']

/-- A filesystem in which exactly the directory `spacedName` exists. -/
def fsExistsW : String → Bool := fun s => s == spacedName

/-! ### The claims -/

/-- Claim C1, counterexample: the files "a" and "b" have different byte
contents (`[0,2,0]` vs `[1,0,1]`) but equal size and equal adler32
checksum, and the script reports them in one duplicate group — grouping is
not byte-exact, no verification beyond the fast checksum happens. -/
theorem claim_C1_cex :
    SameGroup (run fsC1 ["a", "b"] true "") "a" "b" ∧
    (fsC1 "a").content ≠ (fsC1 "b").content := by
  decide

/-- Claim C1, amended: in a completed run, two distinct enumerated
non-directory files are placed in the same reported duplicate group if and
only if they have equal size and equal adler32 checksum; byte-identical
content is sufficient but not necessary, because the script performs no
verification beyond the fast checksum. -/
theorem claim_C1 (fs : FileSystem) (files : List String) (warn : Bool)
    (resp : String) (ps : List (Nat × List (Nat × List String))) (td tf : Nat)
    (h : run fs files warn resp = Outcome.report ps td tf) (a b : String)
    (ha : a ∈ files) (hb : b ∈ files) (hda : (fs a).isDir = false)
    (hdb : (fs b).isDir = false) (hab : a ≠ b) :
    SameGroup (run fs files warn resp) a b ↔
      (getsize fs a = getsize fs b ∧ adlerOf fs a = adlerOf fs b) := by
  rw [h]
  constructor
  · exact fun hsg => sameGroup_size_adler fs files warn resp ps td tf h a b hsg
  · rintro ⟨h1, h2⟩
    exact sameGroup_of_size_adler fs files warn resp ps td tf h a b ha hb
      hda hdb hab h1 h2

theorem claim_C1_witness :
    SameGroup (run fsC1 ["a", "b"] true "") "a" "b" ↔
      (getsize fsC1 "a" = getsize fsC1 "b" ∧
        adlerOf fsC1 "a" = adlerOf fsC1 "b") :=
  claim_C1 fsC1 ["a", "b"] true "" [(3, [(458755, ["a", "b"])])] 2 2 rfl
    "a" "b" (by decide) (by decide) (by decide) (by decide) (by decide)

/-- Claim C2 (the code contradicts it): with two same-size files "u" and
"v" where "u" has become unreadable by checksum time, the run does not
complete with a warning — the uncaught exception aborts the whole run
before the sibling "v" is processed, and the exit status is the failure
status 1, not success. -/
theorem claim_C2 :
    run fsC2 ["u", "v"] true "" = Outcome.readError "u" ∧
    exitStatus (run fsC2 ["u", "v"] true "") = 1 := by
  decide

/-- Claim C3: when the duplicate-size class count exceeds 200, warnings
are enabled and the prompt response is "n", the run is cancelled: no
duplicate groups are reported, the exit status is 0 (not a failure), and
the signature/verification stages never run — the same input with every
file made unreadable still cancels instead of hitting a read error. -/
theorem claim_C3 (fs : FileSystem) (files : List String) (warn : Bool)
    (resp : String) (h1 : 200 < dupCount fs files) (h2 : warn = true)
    (h3 : resp = "n") :
    run fs files warn resp = Outcome.cancelled ∧
    groupsOf (run fs files warn resp) = [] ∧
    exitStatus (run fs files warn resp) = 0 ∧
    run (allUnreadable fs) files warn resp = Outcome.cancelled := by
  subst h2
  subst h3
  have hc : run fs files true "n" = Outcome.cancelled :=
    (run_cancelled_iff fs files true "n").mpr ⟨h1, rfl, rfl⟩
  have hc2 : run (allUnreadable fs) files true "n" = Outcome.cancelled := by
    apply (run_cancelled_iff (allUnreadable fs) files true "n").mpr
    refine ⟨?_, rfl, rfl⟩
    unfold dupCount at h1 ⊢
    rw [classify_allUnreadable]
    exact h1
  refine ⟨hc, ?_, ?_, hc2⟩
  · rw [hc]
    rfl
  · rw [hc]
    rfl

set_option maxRecDepth 100000 in
theorem claim_C3_witness :
    run fsBig bigFiles true "n" = Outcome.cancelled ∧
    groupsOf (run fsBig bigFiles true "n") = [] ∧
    exitStatus (run fsBig bigFiles true "n") = 0 ∧
    run (allUnreadable fsBig) bigFiles true "n" = Outcome.cancelled :=
  claim_C3 fsBig bigFiles true "n" (by decide) rfl rfl

/-- Claim C4, counterexample: for the enumeration consisting of the single
directory entry "d", the summary reports M = 1 files although the count of
FileRecords considered after filtering out non-regular entries is 0 — the
summary uses the pre-filter length of the enumerated list. -/
theorem claim_C4_cex :
    run fsC4 ["d"] true "" = Outcome.report [] 0 1 ∧
    ((["d"].filter (fun f => !(fsC4 f).isDir)).length ≠ 1) := by
  decide

/-- Claim C4, amended: in a completed run, total_duplicates equals the sum
over all reported groups of the number of files in the group, and the
summary's total_files M equals the length of the enumerated file list
including non-regular entries such as directories (pre-filter), not the
post-filter count. -/
theorem claim_C4 (fs : FileSystem) (files : List String) (warn : Bool)
    (resp : String) (ps : List (Nat × List (Nat × List String))) (td tf : Nat)
    (h : run fs files warn resp = Outcome.report ps td tf) :
    td = ((groupsOf (run fs files warn resp)).map List.length).sum ∧
    tf = files.length := by
  obtain ⟨-, htd, htf⟩ := run_report_inv fs files warn resp ps td tf h
  refine ⟨?_, htf⟩
  rw [h]
  show td = ((reportGroups ps).map List.length).sum
  rw [htd, totalDupAcc_eq]

theorem claim_C4_witness :
    (2 : Nat) = ((groupsOf (run fsC1 ["a", "b"] true "")).map
      List.length).sum ∧
    (2 : Nat) = (["a", "b"] : List String).length :=
  claim_C4 fsC1 ["a", "b"] true "" [(3, [(458755, ["a", "b"])])] 2 2 rfl

/-- Claim C5: in a completed run, the reported groups form a partition
fragment — every reported duplicate group has at least 2 files, and no
file appears in two different duplicate groups. -/
theorem claim_C5 (fs : FileSystem) (files : List String) (warn : Bool)
    (resp : String) (ps : List (Nat × List (Nat × List String))) (td tf : Nat)
    (h : run fs files warn resp = Outcome.report ps td tf) :
    (∀ g ∈ groupsOf (run fs files warn resp), 2 ≤ g.length) ∧
    (groupsOf (run fs files warn resp)).Pairwise
      (fun g1 g2 => ∀ x, x ∈ g1 → x ∉ g2) := by
  rw [h]
  exact ⟨report_groups_two_le fs files warn resp ps td tf h,
    report_groups_pairwise fs files warn resp ps td tf h⟩

theorem claim_C5_witness :
    (∀ g ∈ groupsOf (run fsC1 ["a", "b"] true ""), 2 ≤ g.length) ∧
    (groupsOf (run fsC1 ["a", "b"] true "")).Pairwise
      (fun g1 g2 => ∀ x, x ∈ g1 → x ∉ g2) :=
  claim_C5 fsC1 ["a", "b"] true "" [(3, [(458755, ["a", "b"])])] 2 2 rfl

/-- Claim C6: two files reported in the same duplicate group always have
equal size — the final grouping refines the size partition. -/
theorem claim_C6 (fs : FileSystem) (files : List String) (warn : Bool)
    (resp : String) (ps : List (Nat × List (Nat × List String))) (td tf : Nat)
    (h : run fs files warn resp = Outcome.report ps td tf) (a b : String)
    (g : List String) (hg : g ∈ groupsOf (run fs files warn resp))
    (hag : a ∈ g) (hbg : b ∈ g) :
    getsize fs a = getsize fs b := by
  rw [h] at hg
  exact (sameGroup_size_adler fs files warn resp ps td tf h a b
    ⟨g, hg, hag, hbg⟩).1

theorem claim_C6_witness : getsize fsC1 "a" = getsize fsC1 "b" :=
  claim_C6 fsC1 ["a", "b"] true "" [(3, [(458755, ["a", "b"])])] 2 2 rfl
    "a" "b" ["a", "b"] (by decide) (by decide) (by decide)

/-- Claim C7: in a completed run, two distinct enumerated zero-byte
regular files are reported as duplicates of one another, and a zero-byte
file is never grouped with a non-empty file. -/
theorem claim_C7 (fs : FileSystem) (files : List String) (warn : Bool)
    (resp : String) (ps : List (Nat × List (Nat × List String))) (td tf : Nat)
    (h : run fs files warn resp = Outcome.report ps td tf) (a b : String)
    (ha : a ∈ files) (hb : b ∈ files) (hda : (fs a).isDir = false)
    (hdb : (fs b).isDir = false) (hab : a ≠ b)
    (hza : (fs a).content = []) (hzb : (fs b).content = []) :
    SameGroup (run fs files warn resp) a b ∧
    (∀ x y g, g ∈ groupsOf (run fs files warn resp) → x ∈ g → y ∈ g →
      (fs x).content = [] → (fs y).content ≠ [] → False) := by
  constructor
  · rw [h]
    apply sameGroup_of_size_adler fs files warn resp ps td tf h a b ha hb
      hda hdb hab
    · unfold getsize
      rw [hza, hzb]
    · unfold adlerOf
      rw [hza, hzb]
  · intro x y g hg hx hy hx0 hy0
    rw [h] at hg
    have hsz := (sameGroup_size_adler fs files warn resp ps td tf h x y
      ⟨g, hg, hx, hy⟩).1
    unfold getsize at hsz
    rw [hx0] at hsz
    exact hy0 (List.length_eq_zero.mp hsz.symm)

theorem claim_C7_witness :
    SameGroup (run fsC7 ["p", "q"] true "") "p" "q" ∧
    (∀ x y g, g ∈ groupsOf (run fsC7 ["p", "q"] true "") → x ∈ g → y ∈ g →
      (fsC7 x).content = [] → (fsC7 y).content ≠ [] → False) :=
  claim_C7 fsC7 ["p", "q"] true "" [(0, [(1, ["p", "q"])])] 2 2 rfl
    "p" "q" (by decide) (by decide) rfl rfl (by decide) rfl rfl

/-- Claim C8: the pipeline is deterministic — two runs over the same
filesystem, file list and flags that both complete produce identical
group lists and identical counters. -/
theorem claim_C8 (fs : FileSystem) (files : List String) (warn : Bool)
    (resp : String) (ps ps2 : List (Nat × List (Nat × List String)))
    (td tf td2 tf2 : Nat)
    (h1 : run fs files warn resp = Outcome.report ps td tf)
    (h2 : run fs files warn resp = Outcome.report ps2 td2 tf2) :
    groupsOf (Outcome.report ps td tf) = groupsOf (Outcome.report ps2 td2 tf2)
      ∧ td = td2 ∧ tf = tf2 := by
  rw [h1] at h2
  injection h2 with e1 e2 e3
  subst e1
  subst e2
  subst e3
  exact ⟨rfl, rfl, rfl⟩

theorem claim_C8_witness :
    groupsOf (Outcome.report [(3, [(458755, ["a", "b"])])] 2 2) =
      groupsOf (Outcome.report [(3, [(458755, ["a", "b"])])] 2 2) ∧
    (2 : Nat) = 2 ∧ (2 : Nat) = 2 :=
  claim_C8 fsC1 ["a", "b"] true "" [(3, [(458755, ["a", "b"])])]
    [(3, [(458755, ["a", "b"])])] 2 2 2 2 rfl rfl

/-- Claim C9: at the large-output checkpoint the run is cancelled exactly
when the prompt fired (more than 200 duplicate-size classes and warnings
enabled) and the response is the single lowercase character "n"; every
other response — "N", "no", the empty string — proceeds with the checksum
stages, and without the prompt no response cancels. -/
theorem claim_C9 (fs : FileSystem) (files : List String) (warn : Bool)
    (resp : String) :
    run fs files warn resp = Outcome.cancelled ↔
      (200 < dupCount fs files ∧ warn = true ∧ resp = "n") :=
  run_cancelled_iff fs files warn resp

/-- Claim C10: the target directory argument is passed through
`shlex.quote` before the existence check, so an existing directory whose
name contains a shell-special character (here a space), where the quoted
spelling itself is not a filesystem entry, is rejected as the fatal input
error "No such directory" with exit status 1. -/
theorem claim_C10 (pathExists isDirectory : String → Bool) (arg : String)
    (hu : arg.toList.any (fun c => !shlexSafeChar c) = true)
    (hex : pathExists arg = true) (hdir : isDirectory arg = true)
    (habs : pathExists (shlexQuote arg) = false) :
    checkTargetDirectory pathExists isDirectory arg =
      TargetResult.fatal TargetError.noSuchDirectory 1 := by
  unfold checkTargetDirectory
  rw [habs]
  rw [if_pos rfl]

theorem claim_C10_witness :
    checkTargetDirectory fsExistsW fsExistsW spacedName =
      TargetResult.fatal TargetError.noSuchDirectory 1 :=
  claim_C10 fsExistsW fsExistsW spacedName (by decide) (by decide)
    (by decide) (by decide)

end FindDuplicates
